import Mathlib

/-!
Verification of the route-dispatch core of the workerd-mock-fetch repository
(source file src/src/template.ts) against its natural-language specification.

The TypeScript core is shallowly embedded below.  JavaScript strings are
modelled as Lean strings; the character-level operations used by the code
(split, startsWith, slice, trailing-slash regex replacement) are modelled by
structurally recursive functions over the character list, so every definition
is executable and kernel-reducible.  JavaScript records (plain objects holding
string values) are modelled as association lists in insertion order, with
property assignment updating an existing key in place.
-/

/-! ## Character-level string primitives (JS semantics) -/

/-- Splitting a character list at a separator, as JS `String.prototype.split`
with a one-character separator: empty pieces are kept. -/
def jsSplitAux (sep : Char) : List Char → List Char → List (List Char)
  | [], cur => [cur.reverse]
  | c :: rest, cur =>
    if c = sep then cur.reverse :: jsSplitAux sep rest [] else jsSplitAux sep rest (c :: cur)

/-- JS `s.split(sep)` for a one-character separator. -/
def jsSplit (sep : Char) (s : String) : List String :=
  (jsSplitAux sep s.toList []).map (fun cs => String.mk cs)

/-- The non-empty slash-separated segments of a path:
JS `p.split('/').filter(Boolean)`. -/
def segments (s : String) : List String :=
  (jsSplit '/' s).filter (fun t => t ≠ "")

/-- JS `s.startsWith(':')`. -/
def startsWithColon (s : String) : Bool :=
  match s.toList with
  | c :: _ => c = ':'
  | [] => false

/-- JS `s.slice(1)`. -/
def dropFirstChar (s : String) : String := String.mk (s.toList.drop 1)

/-- JS `s.replace(/\/$/, '')`: remove one trailing slash if present. -/
def stripTrailSlash (s : String) : String :=
  match s.toList.getLast? with
  | some c => if c = '/' then String.mk s.toList.dropLast else s
  | none => s

/-- JS `url.split('?')[0]`: everything before the first question mark. -/
def beforeQuery (url : String) : String :=
  String.mk (url.toList.takeWhile (fun c => c ≠ '?'))

/-- Whether a string contains a question mark (a query component). -/
def hasQueryChar (url : String) : Bool := url.toList.contains '?'

/-- Lexicographic comparison of character lists by code point, modelling the
default JS string comparison used by `Array.prototype.sort`. -/
def charsLe : List Char → List Char → Bool
  | [], _ => true
  | _ :: _, [] => false
  | a :: as, b :: bs => if a = b then charsLe as bs else decide (a < b)

/-- String comparison used to model the default JS sort order. -/
def strLeB (a b : String) : Bool := charsLe a.toList b.toList

/-- JS `paths.sort()` on an array of strings: sorting ascending by the
default string comparison. -/
def sortStr (l : List String) : List String :=
  List.insertionSort (fun a b => strLeB a b = true) l

/-- Joining a list of path pieces with slashes. -/
def joinSlash : List String → String
  | [] => ""
  | [s] => s
  | s :: rest => s ++ "/" ++ joinSlash rest

/-- Node `path.posix.normalize`: resolve `.` and `..` segments, collapse
repeated slashes, keep one trailing slash when the input had one. -/
def posixNormalize (p : String) : String :=
  let isAbs := p.toList.head? = some '/'
  let hasTrail := p.toList.getLast? = some '/'
  let parts := (jsSplit '/' p).filter (fun s => s ≠ "")
  let stack := parts.foldl (fun acc seg =>
    if seg = "." then acc
    else if seg = ".." then
      match acc.getLast? with
      | some last => if last = ".." then acc ++ [seg] else acc.dropLast
      | none => if isAbs then acc else acc ++ [seg]
    else acc ++ [seg]) ([] : List String)
  let core := joinSlash stack
  if core = "" then (if isAbs then "/" else if hasTrail then "./" else ".")
  else (if isAbs then "/" else "") ++ core ++ (if hasTrail then "/" else "")

/-- Node `path.posix.join` on two pieces, as used by the source. -/
def posixJoin (a b : String) : String :=
  let joined := joinSlash ([a, b].filter (fun s => s ≠ ""))
  if joined = "" then "." else posixNormalize joined

/-! ## Route table model -/

mutual
/-- One entry of the injected route configuration: an optional path segment,
a handler-module file reference, and a list of child entries. -/
inductive RouteEntry where
  | mk (path : Option String) (file : String) (children : RouteList)
/-- A list of route entries, kept as a separate inductive so that all
tree-walking functions are structurally recursive and kernel-reducible. -/
inductive RouteList where
  | nil
  | cons (head : RouteEntry) (tail : RouteList)
end

/-- The result of route resolution: the matched handler file and the
normalized full route path, as in the source `findRouteFile` return value. -/
structure RouteInfoR where
  file : String
  routePath : String
deriving DecidableEq, Repr

/-- Source line 38: `path.posix.join(parentPath, route.path || "").replace(/\/$/, '') || "/"`. -/
def fullPathOf (parentPath : String) (p : Option String) : String :=
  let stripped := stripTrailSlash (posixJoin parentPath (p.getD ""))
  if stripped = "" then "/" else stripped

/-- Source lines 41-42: normalize a path for comparison
(`fullPath === "/" ? "/" : fullPath.replace(/\/$/, '')`). -/
def normPath (s : String) : String := if s = "/" then "/" else stripTrailSlash s

/-- Source `matchesDynamicRoute` inner loop: position-wise comparison once the
segment counts agree; a segment starting with the parameter marker matches
anything, any other segment must be equal. -/
def dynSegsMatch : List String → List String → Bool
  | r :: rs, t :: ts => (startsWithColon r || r == t) && dynSegsMatch rs ts
  | _, _ => true

/-- Source `matchesDynamicRoute` (template.ts lines 61-85). -/
def matchesDynamicRoute (routePath targetPath : String) : Bool :=
  let routeSegments := segments routePath
  let targetSegments := segments targetPath
  if routeSegments.length ≠ targetSegments.length then false
  else dynSegsMatch routeSegments targetSegments

/-- Source `findRouteFile` (template.ts lines 31-56): depth-first walk of the
route table; a node is tested (exactly or dynamically) against the normalized
target, and on failure its children are searched before later siblings. -/
def findRouteFile (targetPath : String) : RouteList → String → Option RouteInfoR
  | .nil, _ => none
  | .cons (.mk p f cs) rest, parentPath =>
    if normPath (fullPathOf parentPath p) == normPath targetPath ||
        matchesDynamicRoute (normPath (fullPathOf parentPath p)) (normPath targetPath) then
      some { file := f, routePath := normPath (fullPathOf parentPath p) }
    else
      match findRouteFile targetPath cs (fullPathOf parentPath p) with
      | some result => some result
      | none => findRouteFile targetPath rest parentPath

/-! ## Parameter records -/

/-- JS property assignment `r[k] = v` on a string record: update the value of
an existing key in place, otherwise append the new key. -/
def recSet (r : List (String × String)) (k v : String) : List (String × String) :=
  if r.any (fun q => q.1 == k) then r.map (fun q => if q.1 == k then (q.1, v) else q)
  else r ++ [(k, v)]

/-- JS property read `r[k]` on a string record (first matching key). -/
def lookupRec : List (String × String) → String → Option String
  | [], _ => none
  | q :: rest, k => if q.1 = k then some q.2 else lookupRec rest k

/-- Loop body of the source `extractParams`: walk the route and target
segments in parallel, recording marker-stripped names with the value at the
same position (empty string when the target segment is missing). -/
def extractGo : List String → List String → List (String × String) → List (String × String)
  | [], _, acc => acc
  | r :: rs, ps, acc =>
    extractGo rs ps.tail
      (if startsWithColon r then recSet acc (dropFirstChar r) (ps.headD "") else acc)

/-- Source `extractParams` (template.ts lines 90-106). -/
def extractParams (routePath actualPath : String) : List (String × String) :=
  extractGo (segments routePath) (segments actualPath) []

/-- JS object spread `{...a, ...b}` on string records: copy the entries of
`a`, then of `b`, into a fresh record by property assignment. -/
def spreadRec (a b : List (String × String)) : List (String × String) :=
  (a ++ b).foldl (fun acc q => recSet acc q.1 q.2) []

/-- Source line 251: `{ ...routeParams, ...additionalParams }`. -/
def mergeParams (routeParams additionalParams : List (String × String)) :
    List (String × String) :=
  spreadRec routeParams additionalParams

/-! ## JavaScript values and JSON serialization -/

mutual
/-- A JavaScript value as far as the dispatcher inspects it. -/
inductive JsValue where
  | undefined
  | null
  | bool (b : Bool)
  | num (n : Int)
  | str (s : String)
  | obj (fields : JsFields)
/-- The fields of a JS object, in property order. -/
inductive JsFields where
  | nil
  | cons (key : String) (value : JsValue) (rest : JsFields)
end

/-- JS truthiness. -/
def jsTruthy : JsValue → Bool
  | .undefined => false
  | .null => false
  | .bool b => b
  | .num n => n ≠ 0
  | .str s => s ≠ ""
  | .obj _ => true

/-- Property lookup on an object field list. -/
def fieldGet : JsFields → String → Option JsValue
  | .nil, _ => none
  | .cons k v rest, key => if k = key then some v else fieldGet rest key

/-- JS `key in v`: `v` is an object carrying the property. -/
def hasField (v : JsValue) (key : String) : Bool :=
  match v with
  | .obj fs => (fieldGet fs key).isSome
  | _ => false

/-- Property read `v[key]`, yielding `undefined` when absent or when `v` is
not an object. -/
def fieldGetD (v : JsValue) (key : String) : JsValue :=
  match v with
  | .obj fs => (fieldGet fs key).getD .undefined
  | _ => .undefined

/-- One character of JSON string escaping, as `JSON.stringify` performs it on
the character range modelled here: the double quote (code point 34) and the
backslash (code point 92) are preceded by a backslash, other characters pass
through. -/
def jsonEscapeChar (c : Char) : List Char :=
  if c.toNat = 34 || c.toNat = 92 then [Char.ofNat 92, c] else [c]

/-- JSON string quoting with escaping of quotes and backslashes. -/
def jsonQuote (s : String) : String :=
  "\"" ++ String.mk (s.toList.foldr (fun c acc => jsonEscapeChar c ++ acc) []) ++ "\""

/-- Joining serialized fields with commas. -/
def joinComma : List String → String
  | [] => ""
  | [s] => s
  | s :: rest => s ++ "," ++ joinComma rest

mutual
/-- JS `JSON.stringify`: `none` models the `undefined` result; fields whose
value serializes to `undefined` are skipped inside objects. -/
def jsonStr : JsValue → Option String
  | .undefined => none
  | .null => some "null"
  | .bool b => some (if b then "true" else "false")
  | .num n => some (toString n)
  | .str s => some (jsonQuote s)
  | .obj fs => some ("\x7b" ++ joinComma (jsonFields fs) ++ "\x7d")
/-- Serialized `key:value` pieces of an object. -/
def jsonFields : JsFields → List String
  | .nil => []
  | .cons k v rest =>
    match jsonStr v with
    | some sv => (jsonQuote k ++ ":" ++ sv) :: jsonFields rest
    | none => jsonFields rest
end

/-- Coercion of a JS value to a header string, as the `Headers` constructor
performs on record values. -/
def headerStr : JsValue → String
  | .undefined => "undefined"
  | .null => "null"
  | .bool b => if b then "true" else "false"
  | .num n => toString n
  | .str s => s
  | .obj _ => "[object Object]"

/-! ## Responses, requests and normalization -/

/-- The observable parts of a `Response` object as constructed by the code. -/
structure MockResponse where
  status : Int
  statusText : String
  headers : List (String × String)
  body : Option String
deriving DecidableEq, Repr

/-- A handler return value: either already a `Response`, or an arbitrary
JS value (`data instanceof Response` distinguishes the two). -/
inductive HandlerResult where
  | resp (r : MockResponse)
  | val (v : JsValue)

/-- Source line 119: `responseData.init?.status || 200` (the model reads a
numeric `status` field; a missing, non-numeric or zero status yields 200). -/
def statusFromInit (i : JsValue) : Int :=
  match i with
  | .obj fs =>
    match fieldGet fs "status" with
    | some (.num n) => if n = 0 then 200 else n
    | _ => 200
  | _ => 200

/-- Source line 120: `responseData.init?.statusText` (absent yields the
`Response` default, the empty string). -/
def statusTextFromInit (i : JsValue) : String :=
  match i with
  | .obj fs =>
    match fieldGet fs "statusText" with
    | some (.str s) => s
    | _ => ""
  | _ => ""

/-- Source line 121: `responseData.init?.headers`, a header record whose
values are coerced to strings; absent yields no headers. -/
def headersFromInit (i : JsValue) : List (String × String) :=
  match i with
  | .obj fs =>
    match fieldGet fs "headers" with
    | some (.obj hs) => headerFields hs
    | _ => []
  | _ => []
where
  headerFields : JsFields → List (String × String)
    | .nil => []
    | .cons k v rest => (k, headerStr v) :: headerFields rest

/-- Source `convertToResponse` (template.ts lines 111-136). -/
def convertToResponse : HandlerResult → MockResponse
  | .resp r => r
  | .val v =>
    if jsTruthy v && hasField v "init" then
      let d := fieldGetD v "data"
      let i := fieldGetD v "init"
      { status := statusFromInit i
        statusText := statusTextFromInit i
        headers := headersFromInit i
        body := match d with | .undefined => none | _ => jsonStr d }
    else
      { status := 200
        statusText := ""
        headers := [("Content-Type", "application/json")]
        body := match v with | .undefined => none | _ => jsonStr v }

/-- The observable parts of the `Request` object handed to a handler. -/
structure MockRequest where
  url : String
  method : String
  headers : List (String × String)
  body : Option String
deriving DecidableEq, Repr

/-! ## Handler modules and context -/

/-- Source `TestContext` (template.ts lines 20-26): the Cloudflare test
environment and execution context are opaque collaborators, modelled as unit. -/
structure TestCtx where
  env : Unit
  ctx : Unit
  params : List (String × String)
deriving DecidableEq, Repr

/-- Source `createTestContext` (template.ts lines 141-149). -/
def createTestContext (params : List (String × String)) : TestCtx :=
  { env := (), ctx := (), params := params }

/-- The argument bundle passed to a handler (template.ts lines 257-261). -/
structure HandlerArgs where
  request : MockRequest
  params : List (String × String)
  context : TestCtx

/-- Source lines 254-262: the handler is called with the request, the merged
parameters, and a freshly created test context holding those parameters. -/
def mkHandlerArgs (request : MockRequest) (allParams : List (String × String)) : HandlerArgs :=
  { request := request, params := allParams, context := createTestContext allParams }

/-- One export of a loaded route module: a callable handler or a plain value. -/
inductive ModuleExport where
  | handler (f : HandlerArgs → HandlerResult)
  | plain (v : JsValue)

/-- A loaded route module: its named exports, in declaration order. -/
structure RouteModule where
  exports : List (String × ModuleExport)

/-- Property read `mod[name]` on a module. -/
def exportLookup : List (String × ModuleExport) → String → Option ModuleExport
  | [], _ => none
  | e :: rest, name => if e.1 = name then some e.2 else exportLookup rest name

/-- JS `Object.keys(mod)`. -/
def exportNames (m : RouteModule) : List String := m.exports.map Prod.fst

/-- Source line 225: `method === 'GET' || method === 'HEAD'`. -/
def isGetMethod (method : String) : Bool := method == "GET" || method == "HEAD"

/-- The capability name the error message reports (`loader` or `action`). -/
def selCapabilityName (method : String) : String :=
  if isGetMethod method then "loader" else "action"

/-- Source line 226: `isGetMethod ? mod.loader : mod.action`. -/
def selectHandler (m : RouteModule) (method : String) : Option ModuleExport :=
  if isGetMethod method then exportLookup m.exports "loader"
  else exportLookup m.exports "action"

/-- JS truthiness of a possibly-absent export (`if (!handler)`). -/
def exportTruthy : Option ModuleExport → Bool
  | none => false
  | some (.handler _) => true
  | some (.plain v) => jsTruthy v

/-! ## The dispatcher -/

/-- The options record accepted by the dispatch entry point
(`WorkerdRequestInit`): an optional method, explicit parameters, and the
remaining request fields the model tracks (headers, body). -/
structure InitOpts where
  method : Option String := none
  params : List (String × String) := []
  headers : Option (List (String × String)) := none
  body : Option String := none

/-- The first argument of the entry point: a URL string or a `Request`. -/
inductive FetchInput where
  | str (s : String)
  | req (r : MockRequest)

/-- The error taxonomy of the dispatcher.  Each constructor carries exactly
the data the corresponding thrown `Error` message embeds. -/
inductive InvokeError where
  | routeNotFound (path : String) (available : List String)
  | moduleLoadFailed (ref : String) (cause : String)
  | handlerNotFound (capability : String) (path : String) (method : String)
      (availableExports : List String)
  | notCallable (capability : String)
deriving DecidableEq, Repr

/-- Decidable equality of dispatch results, so concrete runs of the model can
be checked by evaluation. -/
instance instDecEqExcept {ε α : Type} [DecidableEq ε] [DecidableEq α] :
    DecidableEq (Except ε α) := fun a b =>
  match a, b with
  | .error e, .error f =>
    if h : e = f then .isTrue (by rw [h]) else .isFalse (by intro hc; cases hc; exact h rfl)
  | .error _, .ok _ => .isFalse (by intro hc; cases hc)
  | .ok _, .error _ => .isFalse (by intro hc; cases hc)
  | .ok x, .ok y =>
    if h : x = y then .isTrue (by rw [h]) else .isFalse (by intro hc; cases hc; exact h rfl)

/-- Source line 199: `url.split('?')[0] || '/'`. -/
def targetOf (url : String) : String :=
  let t := beforeQuery url
  if t = "" then "/" else t

/-- Model of `new URL(u).pathname` for absolute http(s) URLs: the part after
the scheme-and-host prefix, up to a query or fragment, `/` when empty.  It
performs no WHATWG normalization (no dot-segment resolution, no
percent-encoding); the dispatch theorems are conditional on the route the
resolved pathname finds, so they do not depend on this modelling choice. -/
def pathnameOf (u : String) : String :=
  match dropToHost u.toList with
  | none => "/"
  | some rest =>
    let p := (rest.dropWhile (fun c => c ≠ '/')).takeWhile (fun c => c ≠ '?' && c ≠ '#')
    if p.isEmpty then "/" else String.mk p
where
  dropToHost : List Char → Option (List Char)
    | '/' :: '/' :: rest => some rest
    | _ :: rest => dropToHost rest
    | [] => none

/-- Source lines 236-241: the request a plain-string invocation builds,
against the configured base URL with the original (query-preserving) url.
The constructor options are `{ method, ...requestInit }`; in this branch the
resolved `method` is already `init.method || 'GET'`, so the spread override
by a present `init.method` is the identity and the resolved method stands. -/
def mkStringRequest (baseUrl url method : String) (opts : InitOpts) : MockRequest :=
  { url := baseUrl ++ url
    method := method
    headers := opts.headers.getD []
    body := opts.body }

/-- Source lines 242-247: cloning a `Request` input
(`new Request(input, { method, ...requestInit })`).  Spreading the option
record after the resolved method means a present `init.method` overrides the
resolved method in the constructed request; headers and body likewise
override the input's when supplied, and are inherited otherwise. -/
def mkCloneRequest (r : MockRequest) (method : String) (opts : InitOpts) : MockRequest :=
  { url := r.url
    method := opts.method.getD method
    headers := opts.headers.getD r.headers
    body := opts.body <|> r.body }

/-- Source lines 187-197: the url derived from the input — a plain string
itself, or the pathname of a `Request` input's url. -/
def urlOf (input : FetchInput) : String :=
  match input with
  | .str s => s
  | .req r => pathnameOf r.url

/-- Source lines 187-197: the resolved method — a `Request` input's own
method takes precedence over `init.method`, defaulting to `GET`. -/
def methodOf (input : FetchInput) (opts : InitOpts) : String :=
  match input with
  | .str _ => opts.method.getD "GET"
  | .req r => if r.method ≠ "" then r.method else opts.method.getD "GET"

/-- Source lines 235-247: the request object handed to the handler, built
from a string input against the base URL, or by cloning a `Request` input. -/
def requestOf (input : FetchInput) (baseUrl method : String) (opts : InitOpts) : MockRequest :=
  match input with
  | .str s => mkStringRequest baseUrl s method opts
  | .req r => mkCloneRequest r method opts

/-- Loop of the source `extractAllRoutePaths` (template.ts lines 271-284):
push each node's full path and splice in the (already sorted) recursive
result for its children. -/
def extractLoop : RouteList → String → List String
  | .nil, _ => []
  | .cons (.mk p _ cs) rest, parentPath =>
    (fullPathOf parentPath p :: sortStr (extractLoop cs (fullPathOf parentPath p))) ++
      extractLoop rest parentPath

/-- Source `extractAllRoutePaths`: every call returns its collected paths
sorted (`return paths.sort()`). -/
def extractAllRoutePaths (cfg : RouteList) (parentPath : String) : List String :=
  sortStr (extractLoop cfg parentPath)

/-- Plain pre-order collection of every node's canonical full path, with no
sorting: the flattened route-path list the specification describes. -/
def collectPaths : RouteList → String → List String
  | .nil, _ => []
  | .cons (.mk p _ cs) rest, parentPath =>
    (fullPathOf parentPath p :: collectPaths cs (fullPathOf parentPath p)) ++
      collectPaths rest parentPath

/-- The route table flattened in the traversal order of `findRouteFile`:
each node (with its normalized full path) before its subtree, each subtree
before later siblings. -/
def preorderInfos : RouteList → String → List RouteInfoR
  | .nil, _ => []
  | .cons (.mk p f cs) rest, parentPath =>
    ({ file := f, routePath := normPath (fullPathOf parentPath p) } : RouteInfoR) ::
      (preorderInfos cs (fullPathOf parentPath p) ++ preorderInfos rest parentPath)

/-- The match test of `findRouteFile` as a predicate on a stored normalized
route path. -/
def hitTest (targetPath : String) (ri : RouteInfoR) : Bool :=
  ri.routePath == normPath targetPath ||
    matchesDynamicRoute ri.routePath (normPath targetPath)

/-- Source `__FETCH_FUNCTION_NAME__` (template.ts lines 182-264): the full
dispatch pipeline.  The injected route table, base URL and module loader are
parameters of the model; the loader models the dynamic `import`. -/
def invoke (table : RouteList) (baseUrl : String)
    (loadMod : String → Except String RouteModule)
    (input : FetchInput) (opts : InitOpts) : Except InvokeError MockResponse :=
  let url : String :=
    match input with
    | .str s => s
    | .req r => pathnameOf r.url
  let method : String :=
    match input with
    | .str _ => opts.method.getD "GET"
    | .req r => if r.method ≠ "" then r.method else opts.method.getD "GET"
  let targetPath := targetOf url
  match findRouteFile targetPath table "" with
  | none => .error (.routeNotFound targetPath (extractAllRoutePaths table ""))
  | some routeInfo =>
    let modKey := posixJoin "~" routeInfo.file
    match loadMod modKey with
    | .error cause => .error (.moduleLoadFailed modKey cause)
    | .ok m =>
      let sel := selectHandler m method
      if exportTruthy sel then
        let request : MockRequest :=
          match input with
          | .str _ => mkStringRequest baseUrl url method opts
          | .req r => mkCloneRequest r method opts
        let routeParams := extractParams routeInfo.routePath targetPath
        let allParams := mergeParams routeParams opts.params
        let args := mkHandlerArgs request allParams
        match sel with
        | some (.handler f) => .ok (convertToResponse (f args))
        | _ => .error (.notCallable (selCapabilityName method))
      else
        .error (.handlerNotFound (selCapabilityName method) targetPath method (exportNames m))

/-! ## Specification-side definitions used by refinement claims -/

/-- The parameter list the specification describes for extraction: for every
position whose route segment carries the marker, the marker-stripped name
paired with the target segment at the same position (empty when missing). -/
def dynPairs : List String → List String → List (String × String)
  | [], _ => []
  | r :: rs, ps =>
    if startsWithColon r then (dropFirstChar r, ps.headD "") :: dynPairs rs ps.tail
    else dynPairs rs ps.tail

/-- The marker-stripped names of the dynamic segments of a route, in order. -/
def dynNames (rs : List String) : List String :=
  (rs.filter startsWithColon).map dropFirstChar

/-- The plain-payload normalization rule as the specification words it:
JSON-serialized body (omitted when the value is undefined), status fixed at
200, and a `Content-Type: application/json` header. -/
def specPlainRule (v : JsValue) : MockResponse :=
  { status := 200
    statusText := ""
    headers := [("Content-Type", "application/json")]
    body := jsonStr v }

/-- The data-with-response-init normalization rule as the specification words
it: body is the JSON-serialized `data` field (omitted when undefined), and
status, status text and headers come from the `init` field, with status
defaulting to 200. -/
def specInitRule (v : JsValue) : MockResponse :=
  { status := statusFromInit (fieldGetD v "init")
    statusText := statusTextFromInit (fieldGetD v "init")
    headers := headersFromInit (fieldGetD v "init")
    body := jsonStr (fieldGetD v "data") }

/-! ## Concrete fixtures for counterexamples and witnesses -/

/-- A handler return value that carries an `init` field but no `data`
field. -/
def cxInitOnly : JsValue :=
  .obj (.cons "init" (.obj (.cons "status" (.num 500) .nil)) .nil)

/-- A route table whose first top-level node does not match `/a/b` but has a
child whose full path `a/b` matches it dynamically, while the second
top-level node `a/b` also matches. -/
def cxTable : RouteList :=
  .cons (.mk (some "a") "parentfile" (.cons (.mk (some "b") "childfile" .nil) .nil))
    (.cons (.mk (some "a/b") "siblingfile" .nil) .nil)

/-- A handler used by concrete fixtures: returns a bare string payload. -/
def okHandler : HandlerArgs → HandlerResult := fun _ => .val (.str "ok")

/-- A module exposing only a write-handler plus an unrelated export. -/
def writeOnlyModule : RouteModule :=
  { exports := [("action", .handler okHandler), ("meta", .plain (.str "m"))] }

/-- A loader serving `writeOnlyModule` under the reference `m1`. -/
def writeOnlyLoader : String → Except String RouteModule := fun k =>
  if k = "~/m1" then .ok writeOnlyModule else .error "no such module"

/-- A one-node route table routing `x` to the module reference `m1`. -/
def oneRouteTable : RouteList := .cons (.mk (some "x") "m1" .nil) .nil

/-- A probe handler that records the request URL and both parameter bags it
observes into the returned response, so dispatch theorems can be instantiated
concretely. -/
def probeHandler : HandlerArgs → HandlerResult := fun args =>
  .resp { status := 200
          statusText := ""
          headers := [("x-url", args.request.url)]
          body := lookupRec args.params "id" }

/-- A module exposing only a read-handler (the probe). -/
def probeModule : RouteModule := { exports := [("loader", .handler probeHandler)] }

/-- A loader serving `probeModule` under the reference `h`. -/
def probeLoader : String → Except String RouteModule := fun k =>
  if k = "~/h" then .ok probeModule else .error "no such module"

/-- A one-node route table routing `/api/users/:id` to the module
reference `h`. -/
def probeTable : RouteList := .cons (.mk (some "/api/users/:id") "h" .nil) .nil

/-- A concrete `Request`-object input whose url resolves to the probe
route. -/
def probeRequest : MockRequest :=
  { url := "http://localhost/api/users/42", method := "GET", headers := [], body := none }

/-- A two-node route table whose declaration order is not sorted. -/
def unsortedTable : RouteList :=
  .cons (.mk (some "b") "fb" .nil) (.cons (.mk (some "a") "fa" .nil) .nil)

/-! ## Claim C5: handler selection is total and two-valued -/

/-- Claim C5: for every method string, handler selection is total and
two-valued.  Methods equal to `GET` or `HEAD` select the module's
read-handler (`loader`) export, and every other method string selects the
write-handler (`action`) export. -/
theorem selectHandler_total_two_valued (method : String) (m : RouteModule) :
    ((method = "GET" ∨ method = "HEAD") →
      selectHandler m method = exportLookup m.exports "loader") ∧
    (method ≠ "GET" → method ≠ "HEAD" →
      selectHandler m method = exportLookup m.exports "action") := by
  constructor
  · intro h
    rcases h with h | h <;> subst h <;> rfl
  · intro h1 h2
    have hg : isGetMethod method = false := by
      simp [isGetMethod, h1, h2]
    simp [selectHandler, hg]

/-- Witness for claim C5 at the concrete methods `POST` and `GET`. -/
theorem selectHandler_total_two_valued_witness :
    selectHandler probeModule "POST" = exportLookup probeModule.exports "action" ∧
    selectHandler probeModule "GET" = exportLookup probeModule.exports "loader" :=
  ⟨(selectHandler_total_two_valued "POST" probeModule).2 (by decide) (by decide),
   (selectHandler_total_two_valued "GET" probeModule).1 (Or.inl rfl)⟩

/-! ## Claim C6: segment-count mismatch never matches -/

/-- Claim C6: for every route path and target path whose non-empty
slash-separated segment sequences have different lengths, segment-wise
dynamic matching fails, regardless of segment contents. -/
theorem matchesDynamicRoute_length_mismatch (routePath targetPath : String)
    (h : (segments routePath).length ≠ (segments targetPath).length) :
    matchesDynamicRoute routePath targetPath = false := by
  simp [matchesDynamicRoute, h]

/-- Witness for claim C6 at a concrete two-versus-one segment pair. -/
theorem matchesDynamicRoute_length_mismatch_witness :
    (segments "a/b").length ≠ (segments "a").length ∧
    matchesDynamicRoute "a/b" "a" = false :=
  ⟨by decide, matchesDynamicRoute_length_mismatch "a/b" "a" (by decide)⟩

/-! ## Claim C2: parameter extraction -/

/-- Setting a key absent from a record appends it. -/
lemma recSet_append_of_not_mem (acc : List (String × String)) (k v : String)
    (h : ∀ q ∈ acc, q.1 ≠ k) : recSet acc k v = acc ++ [(k, v)] := by
  have hany : acc.any (fun q => q.1 == k) = false := by
    rw [List.any_eq_false]
    intro q hq
    simpa using h q hq
  simp [recSet, hany]

/-- The dynamic-segment names of a cons with a dynamic head. -/
lemma dynNames_cons_pos (r : String) (rs : List String) (h : startsWithColon r = true) :
    dynNames (r :: rs) = dropFirstChar r :: dynNames rs := by
  simp [dynNames, List.filter_cons, h]

/-- The dynamic-segment names of a cons with a static head. -/
lemma dynNames_cons_neg (r : String) (rs : List String) (h : startsWithColon r = false) :
    dynNames (r :: rs) = dynNames rs := by
  simp [dynNames, List.filter_cons, h]

/-- The extraction loop, run with pairwise-distinct dynamic names over an
accumulator disjoint from them, appends exactly the specification's pairs. -/
lemma extractGo_eq_append (rs : List String) :
    ∀ (ps : List String) (acc : List (String × String)),
      (dynNames rs).Nodup → (∀ q ∈ acc, q.1 ∉ dynNames rs) →
      extractGo rs ps acc = acc ++ dynPairs rs ps := by
  induction rs with
  | nil => intro ps acc _ _; simp [extractGo, dynPairs]
  | cons r rs ih =>
    intro ps acc hnd hdisj
    by_cases hr : startsWithColon r = true
    · rw [dynNames_cons_pos r rs hr] at hnd hdisj
      have hk : ∀ q ∈ acc, q.1 ≠ dropFirstChar r := by
        intro q hq
        have := hdisj q hq
        simp only [List.mem_cons] at this
        exact fun hc => this (Or.inl hc)
      have hset := recSet_append_of_not_mem acc (dropFirstChar r) (ps.headD "") hk
      have hnd2 : (dynNames rs).Nodup := hnd.of_cons
      have hdisj2 : ∀ q ∈ acc ++ [(dropFirstChar r, ps.headD "")], q.1 ∉ dynNames rs := by
        intro q hq
        rcases List.mem_append.mp hq with hq | hq
        · have := hdisj q hq
          simp only [List.mem_cons] at this
          exact fun hc => this (Or.inr hc)
        · simp only [List.mem_singleton] at hq
          subst hq
          exact (List.nodup_cons.mp hnd).1
      calc extractGo (r :: rs) ps acc
          = extractGo rs ps.tail (acc ++ [(dropFirstChar r, ps.headD "")]) := by
            simp only [extractGo, hr, if_true, hset]
        _ = (acc ++ [(dropFirstChar r, ps.headD "")]) ++ dynPairs rs ps.tail :=
            ih ps.tail _ hnd2 hdisj2
        _ = acc ++ dynPairs (r :: rs) ps := by
            simp [dynPairs, hr, List.append_assoc]
    · have hr2 : startsWithColon r = false := by simpa using hr
      rw [dynNames_cons_neg r rs hr2] at hnd hdisj
      calc extractGo (r :: rs) ps acc
          = extractGo rs ps.tail acc := by simp [extractGo, hr2]
        _ = acc ++ dynPairs rs ps.tail := ih ps.tail acc hnd hdisj
        _ = acc ++ dynPairs (r :: rs) ps := by simp [dynPairs, hr2]

/-- The specification's pair list has one entry per dynamic segment. -/
lemma dynPairs_length (rs : List String) :
    ∀ ps : List String, (dynPairs rs ps).length = (dynNames rs).length := by
  induction rs with
  | nil => intro ps; simp [dynPairs, dynNames]
  | cons r rs ih =>
    intro ps
    by_cases hr : startsWithColon r = true
    · rw [dynNames_cons_pos r rs hr]
      simp [dynPairs, hr, ih ps.tail]
    · have hr2 : startsWithColon r = false := by simpa using hr
      rw [dynNames_cons_neg r rs hr2]
      simp [dynPairs, hr2, ih ps.tail]

/-- Claim C2 (amended): when the marker-stripped names of the route's dynamic
segments are pairwise distinct, extraction returns exactly one entry per
dynamic segment, keyed by the stripped name, valued by the target segment at
the same position (empty string when that segment is missing).  Duplicate
dynamic names collapse into one entry, so the distinctness assumption is
necessary. -/
theorem extractParams_distinct_names (routePath actualPath : String)
    (h : (dynNames (segments routePath)).Nodup) :
    extractParams routePath actualPath =
      dynPairs (segments routePath) (segments actualPath) ∧
    (extractParams routePath actualPath).length =
      (dynNames (segments routePath)).length := by
  have heq : extractParams routePath actualPath =
      dynPairs (segments routePath) (segments actualPath) := by
    unfold extractParams
    rw [extractGo_eq_append (segments routePath) (segments actualPath) [] h (by simp)]
    simp
  exact ⟨heq, by rw [heq, dynPairs_length]⟩

/-- Witness for claim C2 (amended) at the route `api/:id` and target
`/api/42`. -/
theorem extractParams_distinct_names_witness :
    extractParams "api/:id" "/api/42" =
      dynPairs (segments "api/:id") (segments "/api/42") ∧
    (extractParams "api/:id" "/api/42").length =
      (dynNames (segments "api/:id")).length :=
  extractParams_distinct_names "api/:id" "/api/42" (by decide)

/-- Counterexample for claim C2 as stated: the route `:id/:id` has two
dynamic segments, but extraction against the target `a/b` returns a single
entry, because the second assignment overwrites the first under the shared
key `id`. -/
theorem extractParams_duplicate_cx :
    ((segments ":id/:id").filter startsWithColon).length = 2 ∧
    extractParams ":id/:id" "a/b" = [("id", "b")] ∧
    (extractParams ":id/:id" "a/b").length ≠ 2 := by
  refine ⟨by decide, by decide, by decide⟩

/-! ## Claim C3: normalization rule selection -/

/-- A value carrying an `init` field is an object, hence truthy. -/
lemma hasField_imp_truthy (v : JsValue) (h : hasField v "init" = true) :
    jsTruthy v = true := by
  cases v <;> simp_all [hasField, jsTruthy]

/-- Claim C3 (amended): for a handler return value that is not already a
response object, the data-with-response-init rule is applied if and only if
the value is an object carrying an `init` field — a `data` field is not
required (a missing or undefined `data` just omits the body); all other
values take the plain-payload rule. -/
theorem convertToResponse_init_iff (v : JsValue) :
    convertToResponse (.val v) =
      if hasField v "init" then specInitRule v else specPlainRule v := by
  by_cases h : hasField v "init" = true
  · have ht := hasField_imp_truthy v h
    rw [if_pos h]
    show convertToResponse (.val v) = specInitRule v
    simp only [convertToResponse]
    rw [ht, h]
    simp only [Bool.and_self, if_true]
    unfold specInitRule
    cases hd : fieldGetD v "data" <;> simp [hd, jsonStr]
  · have hf : hasField v "init" = false := by simpa using h
    rw [if_neg h]
    show convertToResponse (.val v) = specPlainRule v
    simp only [convertToResponse]
    rw [hf]
    simp only [Bool.and_false]
    rw [if_neg (by simp)]
    unfold specPlainRule
    cases v <;> simp [jsonStr]

/-- Counterexample for claim C3 as stated: `cxInitOnly` has an `init` field
but no `data` field, so the claim predicts the plain-payload rule, yet the
code applies the data-with-response-init rule (status 500, no
`Content-Type` header, no body). -/
theorem convertToResponse_missing_data_cx :
    hasField cxInitOnly "data" = false ∧
    convertToResponse (.val cxInitOnly) ≠ specPlainRule cxInitOnly ∧
    convertToResponse (.val cxInitOnly) =
      { status := 500, statusText := "", headers := [], body := none } :=
  ⟨by decide, by decide, by decide⟩

/-! ## Claim C1: traversal order of the route resolver -/

/-- Claim C1 (amended): the resolver returns the first matching node in
depth-first pre-order — each node is tested before its own children, and a
node's entire subtree is searched before its later siblings.  Consequently a
matching node at a level can be shadowed by a matching descendant of an
earlier non-matching sibling; siblings are not all considered before
descending. -/
theorem findRouteFile_eq_preorder (targetPath : String) (cfg : RouteList) (parentPath : String) :
    findRouteFile targetPath cfg parentPath =
      (preorderInfos cfg parentPath).find? (hitTest targetPath) := by
  induction cfg, parentPath using findRouteFile.induct targetPath with
  | case1 parent => rfl
  | case2 p f cs rest parent hcond =>
    simp only [findRouteFile, preorderInfos]
    rw [if_pos hcond, List.find?_cons_of_pos _ (by simpa [hitTest] using hcond)]
  | case3 p f cs rest parent hcond result hsome ih =>
    simp only [findRouteFile, preorderInfos]
    rw [if_neg hcond, hsome]
    rw [List.find?_cons_of_neg _ (by simpa [hitTest] using hcond), List.find?_append]
    rw [← ih, hsome]
    rfl
  | case4 p f cs rest parent hcond hnone ihc ihr =>
    simp only [findRouteFile, preorderInfos]
    rw [if_neg hcond, hnone]
    rw [List.find?_cons_of_neg _ (by simpa [hitTest] using hcond), List.find?_append]
    rw [← ihc, hnone, ihr]
    rfl

/-- Counterexample for claim C1 as stated: in `cxTable` the second top-level
node (full path `a/b`, file `siblingfile`) matches the target `/a/b`, yet the
resolver returns the descendant (file `childfile`) of the earlier
non-matching top-level sibling, because it descends into each node's children
before considering later siblings. -/
theorem findRouteFile_sibling_shadow_cx :
    hitTest "/a/b"
      { file := "siblingfile", routePath := normPath (fullPathOf "" (some "a/b")) } = true ∧
    findRouteFile "/a/b" cxTable "" = some { file := "childfile", routePath := "a/b" } ∧
    findRouteFile "/a/b" cxTable "" ≠
      some { file := "siblingfile", routePath := normPath (fullPathOf "" (some "a/b")) } :=
  ⟨by decide, by decide, by decide⟩

/-! ## Claim C7: route-not-found diagnostics -/

lemma charsLe_total : ∀ a b : List Char, charsLe a b = true ∨ charsLe b a = true := by
  intro a
  induction a with
  | nil => intro b; left; rfl
  | cons x xs ih =>
    intro b
    cases b with
    | nil => right; rfl
    | cons y ys =>
      by_cases hxy : x = y
      · subst hxy
        simpa [charsLe] using ih ys
      · rcases lt_or_gt_of_ne hxy with h | h
        · left; simp [charsLe, hxy, h]
        · right; simp [charsLe, Ne.symm hxy, h]

lemma charsLe_trans : ∀ a b c : List Char,
    charsLe a b = true → charsLe b c = true → charsLe a c = true := by
  intro a
  induction a with
  | nil => intro b c _ _; rfl
  | cons x xs ih =>
    intro b c hab hbc
    cases b with
    | nil => simp [charsLe] at hab
    | cons y ys =>
      cases c with
      | nil => simp [charsLe] at hbc
      | cons z zs =>
        simp only [charsLe] at hab hbc ⊢
        by_cases hxy : x = y
        · subst hxy
          rw [if_pos rfl] at hab
          by_cases hyz : x = z
          · subst hyz
            rw [if_pos rfl] at hbc ⊢
            exact ih ys zs hab hbc
          · rw [if_neg hyz] at hbc ⊢
            exact hbc
        · rw [if_neg hxy] at hab
          have hlt : x < y := of_decide_eq_true hab
          by_cases hyz : y = z
          · subst hyz
            rw [if_neg hxy]
            exact hab
          · rw [if_neg hyz] at hbc
            have hlt2 : y < z := of_decide_eq_true hbc
            have hxz : x < z := lt_trans hlt hlt2
            rw [if_neg (ne_of_lt hxz)]
            exact decide_eq_true hxz

lemma charsLe_antisymm : ∀ a b : List Char,
    charsLe a b = true → charsLe b a = true → a = b := by
  intro a
  induction a with
  | nil =>
    intro b _ hba
    cases b with
    | nil => rfl
    | cons y ys => simp [charsLe] at hba
  | cons x xs ih =>
    intro b hab hba
    cases b with
    | nil => simp [charsLe] at hab
    | cons y ys =>
      simp only [charsLe] at hab hba
      by_cases hxy : x = y
      · subst hxy
        rw [if_pos rfl] at hab hba
        rw [ih ys hab hba]
      · rw [if_neg hxy] at hab
        rw [if_neg (Ne.symm hxy)] at hba
        exact absurd (of_decide_eq_true hba) (lt_asymm (of_decide_eq_true hab))

lemma str_eq_of_toList (a b : String) (h : a.toList = b.toList) : a = b := by
  cases a
  cases b
  exact congrArg String.mk (by simpa [String.toList] using h)

lemma strLeB_total (a b : String) : strLeB a b = true ∨ strLeB b a = true :=
  charsLe_total a.toList b.toList

lemma strLeB_trans (a b c : String) (h1 : strLeB a b = true) (h2 : strLeB b c = true) :
    strLeB a c = true :=
  charsLe_trans a.toList b.toList c.toList h1 h2

lemma strLeB_antisymm (a b : String) (h1 : strLeB a b = true) (h2 : strLeB b a = true) :
    a = b :=
  str_eq_of_toList a b (charsLe_antisymm a.toList b.toList h1 h2)

lemma perm_sortStr (l : List String) : (sortStr l).Perm l :=
  List.perm_insertionSort _ l

lemma sorted_sortStr (l : List String) :
    List.Sorted (fun a b => strLeB a b = true) (sortStr l) := by
  haveI : IsTotal String (fun a b => strLeB a b = true) := ⟨strLeB_total⟩
  haveI : IsTrans String (fun a b => strLeB a b = true) := ⟨strLeB_trans⟩
  exact List.sorted_insertionSort _ l

lemma sortStr_congr_perm (a b : List String) (h : a.Perm b) : sortStr a = sortStr b := by
  haveI : IsAntisymm String (fun a b => strLeB a b = true) := ⟨strLeB_antisymm⟩
  exact List.eq_of_perm_of_sorted (((perm_sortStr a).trans h).trans (perm_sortStr b).symm)
    (sorted_sortStr a) (sorted_sortStr b)

lemma extractLoop_perm_collect (cfg : RouteList) (parentPath : String) :
    (extractLoop cfg parentPath).Perm (collectPaths cfg parentPath) := by
  induction cfg, parentPath using extractLoop.induct with
  | case1 parent => rfl
  | case2 p f cs rest parent ihc ihr =>
    simp only [extractLoop, collectPaths, List.cons_append]
    exact List.Perm.cons _ (List.Perm.append ((perm_sortStr _).trans ihc) ihr)

lemma extractAllRoutePaths_eq_sorted_collect (cfg : RouteList) (parentPath : String) :
    extractAllRoutePaths cfg parentPath = sortStr (collectPaths cfg parentPath) :=
  sortStr_congr_perm _ _ (extractLoop_perm_collect cfg parentPath)

lemma invoke_str_routeNotFound (table : RouteList) (baseUrl : String)
    (loadMod : String → Except String RouteModule) (url : String) (opts : InitOpts)
    (h : findRouteFile (targetOf url) table "" = none) :
    invoke table baseUrl loadMod (.str url) opts =
      .error (.routeNotFound (targetOf url) (extractAllRoutePaths table "")) := by
  unfold invoke
  simp only [h]

/-- Claim C7: for every string-input target that matches no node of the route
table, `invoke` fails with a route-not-found error embedding the attempted
path and the canonical paths of every node of the table, flattened
(`collectPaths`) and sorted ascending by the JS string order. -/
theorem invoke_routeNotFound_sorted_paths (table : RouteList) (baseUrl : String)
    (loadMod : String → Except String RouteModule) (url : String) (opts : InitOpts)
    (h : findRouteFile (targetOf url) table "" = none) :
    invoke table baseUrl loadMod (.str url) opts =
      .error (.routeNotFound (targetOf url) (sortStr (collectPaths table ""))) ∧
    List.Sorted (fun a b => strLeB a b = true) (sortStr (collectPaths table "")) ∧
    (sortStr (collectPaths table "")).Perm (collectPaths table "") := by
  refine ⟨?_, sorted_sortStr _, perm_sortStr _⟩
  rw [invoke_str_routeNotFound table baseUrl loadMod url opts h,
    extractAllRoutePaths_eq_sorted_collect]

/-- Witness for claim C7 on the concrete two-route unsorted table: the error
lists both canonical paths in ascending order. -/
theorem invoke_routeNotFound_sorted_paths_witness :
    invoke unsortedTable "http://localhost" writeOnlyLoader (.str "/unknown") {} =
      .error (.routeNotFound "/unknown" ["a", "b"]) := by
  rw [(invoke_routeNotFound_sorted_paths unsortedTable "http://localhost" writeOnlyLoader
    "/unknown" {} (by decide)).1]
  decide

/-! ## Claim C4: handler-not-found diagnostics -/

/-- Claim C4 (amended): when the loaded module lacks the capability selected
by the method, `invoke` fails with a handler-not-found error embedding the
selected capability name, the requested path, the method, and the list of
ALL export names of the module (`Object.keys`), which contains the present
capability names but may also contain unrelated exports. -/
theorem invoke_handlerNotFound_exports (table : RouteList) (baseUrl : String)
    (loadMod : String → Except String RouteModule) (url : String) (opts : InitOpts)
    (ri : RouteInfoR) (m : RouteModule)
    (h1 : findRouteFile (targetOf url) table "" = some ri)
    (h2 : loadMod (posixJoin "~" ri.file) = .ok m)
    (h3 : exportTruthy (selectHandler m (opts.method.getD "GET")) = false) :
    invoke table baseUrl loadMod (.str url) opts =
      .error (.handlerNotFound (selCapabilityName (opts.method.getD "GET")) (targetOf url)
        (opts.method.getD "GET") (exportNames m)) := by
  unfold invoke
  simp only [h1, h2, h3, Bool.false_eq_true, if_false]

/-- Witness for claim C4 (amended) at a concrete GET request against a module
exposing only a write-handler and an unrelated export. -/
theorem invoke_handlerNotFound_exports_witness :
    invoke oneRouteTable "http://localhost" writeOnlyLoader (.str "/x") {} =
      .error (.handlerNotFound (selCapabilityName "GET") (targetOf "/x") "GET"
        (exportNames writeOnlyModule)) :=
  invoke_handlerNotFound_exports oneRouteTable "http://localhost" writeOnlyLoader "/x" {}
    { file := "m1", routePath := "x" } writeOnlyModule (by decide) (by rfl) (by rfl)

/-- Counterexample for claim C4 as stated: the error message for a GET
request against `writeOnlyModule` embeds the export name `meta`, which is not
a capability name, so the embedded list is not restricted to capability
names. -/
theorem invoke_handlerNotFound_noncapability_cx :
    invoke oneRouteTable "http://localhost" writeOnlyLoader (.str "/x") {} =
      .error (.handlerNotFound "loader" "/x" "GET" ["action", "meta"]) ∧
    "meta" ∈ exportNames writeOnlyModule ∧ "meta" ≠ "loader" ∧ "meta" ≠ "action" :=
  ⟨by decide, by decide, by decide, by decide⟩

/-! ## Claim C8: explicit parameters override path-derived parameters -/

lemma lookupRec_eq_none_of_not_mem (k : String) :
    ∀ l : List (String × String), k ∉ l.map Prod.fst → lookupRec l k = none := by
  intro l
  induction l with
  | nil => intro _; rfl
  | cons q rest ih =>
    intro h
    simp only [List.map_cons, List.mem_cons, not_or] at h
    simp only [lookupRec, if_neg (fun hc : q.1 = k => h.1 hc.symm)]
    exact ih h.2

lemma lookupRec_map_update (k v : String) :
    ∀ r : List (String × String), r.any (fun q => q.1 == k) = true →
      lookupRec (r.map (fun q => if q.1 == k then (q.1, v) else q)) k = some v := by
  intro r
  induction r with
  | nil => intro h; simp at h
  | cons q rest ih =>
    intro h
    by_cases hq : q.1 = k
    · have hqb : (q.1 == k) = true := by simpa using hq
      simp [lookupRec, hqb, hq]
    · have hqb : (q.1 == k) = false := by simpa using hq
      have hrest : rest.any (fun q => q.1 == k) = true := by
        simpa [hqb] using h
      simp only [List.map_cons, hqb, Bool.false_eq_true, if_false, lookupRec, if_neg hq]
      exact ih hrest

lemma lookupRec_append_single_self (k v : String) :
    ∀ r : List (String × String), (∀ q ∈ r, q.1 ≠ k) →
      lookupRec (r ++ [(k, v)]) k = some v := by
  intro r
  induction r with
  | nil => simp [lookupRec]
  | cons q rest ih =>
    intro h
    simp only [List.cons_append, lookupRec, if_neg (h q (by simp))]
    exact ih (fun q hq => h q (List.mem_cons_of_mem _ hq))

lemma lookupRec_recSet_self (r : List (String × String)) (k v : String) :
    lookupRec (recSet r k v) k = some v := by
  unfold recSet
  by_cases hany : r.any (fun q => q.1 == k) = true
  · rw [if_pos hany]
    exact lookupRec_map_update k v r hany
  · rw [if_neg hany]
    rw [Bool.not_eq_true] at hany
    refine lookupRec_append_single_self k v r ?_
    intro q hq
    simpa using List.any_eq_false.mp hany q hq

lemma lookupRec_map_update_other (k v k2 : String) (hne : k2 ≠ k) :
    ∀ r : List (String × String),
      lookupRec (r.map (fun q => if q.1 == k then (q.1, v) else q)) k2 = lookupRec r k2 := by
  intro r
  induction r with
  | nil => rfl
  | cons q rest ih =>
    by_cases hq : (q.1 == k) = true
    · have hqk : q.1 = k := by simpa using hq
      have hq2 : ¬ q.1 = k2 := by
        rw [hqk]
        exact fun hc => hne hc.symm
      simp only [List.map_cons, hq, if_true, lookupRec, if_neg hq2]
      exact ih
    · have hqb : (q.1 == k) = false := by simpa using hq
      simp only [List.map_cons, hqb, Bool.false_eq_true, if_false, lookupRec]
      by_cases hq2 : q.1 = k2
      · simp [hq2]
      · simp only [if_neg hq2]
        exact ih

lemma lookupRec_append_single_other (k v k2 : String) (hne : k2 ≠ k) :
    ∀ r : List (String × String), lookupRec (r ++ [(k, v)]) k2 = lookupRec r k2 := by
  intro r
  induction r with
  | nil =>
    simp only [List.nil_append, lookupRec, if_neg (fun hc : k = k2 => hne hc.symm)]
  | cons q rest ih =>
    simp only [List.cons_append, lookupRec]
    by_cases hq2 : q.1 = k2
    · simp [hq2]
    · simp only [if_neg hq2]
      exact ih

lemma lookupRec_recSet_other (r : List (String × String)) (k v k2 : String)
    (hne : k2 ≠ k) : lookupRec (recSet r k v) k2 = lookupRec r k2 := by
  unfold recSet
  by_cases hany : r.any (fun q => q.1 == k) = true
  · rw [if_pos hany]
    exact lookupRec_map_update_other k v k2 hne r
  · rw [if_neg hany]
    exact lookupRec_append_single_other k v k2 hne r

lemma foldl_recSet_lookup (k : String) :
    ∀ (l acc : List (String × String)), (l.map Prod.fst).Nodup →
      lookupRec (l.foldl (fun a q => recSet a q.1 q.2) acc) k =
        (lookupRec l k).or (lookupRec acc k) := by
  intro l
  induction l with
  | nil => intro acc _; rfl
  | cons q rest ih =>
    intro acc hnd
    simp only [List.map_cons, List.nodup_cons] at hnd
    rw [List.foldl_cons, ih (recSet acc q.1 q.2) hnd.2]
    by_cases hk : q.1 = k
    · subst hk
      have hnone : lookupRec rest q.1 = none :=
        lookupRec_eq_none_of_not_mem q.1 rest hnd.1
      rw [hnone, lookupRec_recSet_self]
      simp [lookupRec]
    · rw [lookupRec_recSet_other acc q.1 q.2 k (fun hc => hk hc.symm)]
      have : lookupRec (q :: rest) k = lookupRec rest k := by
        simp [lookupRec, hk]
      rw [this]

lemma recSet_keys_nodup (r : List (String × String)) (k v : String)
    (h : (r.map Prod.fst).Nodup) : ((recSet r k v).map Prod.fst).Nodup := by
  unfold recSet
  by_cases hany : r.any (fun q => q.1 == k) = true
  · rw [if_pos hany]
    have : ((r.map (fun q => if q.1 == k then (q.1, v) else q)).map Prod.fst) =
        r.map Prod.fst := by
      rw [List.map_map]
      refine List.map_congr_left ?_
      intro q _
      by_cases hq : q.1 = k <;> simp [hq]
    rw [this]
    exact h
  · rw [if_neg hany]
    rw [Bool.not_eq_true] at hany
    have hk : k ∉ r.map Prod.fst := by
      intro hc
      rcases List.mem_map.mp hc with ⟨q, hq, hq2⟩
      have := List.any_eq_false.mp hany q hq
      simp [hq2] at this
    rw [List.map_append, List.nodup_append]
    refine ⟨h, by simp, ?_⟩
    intro a ha hb
    simp only [List.map_cons, List.map_nil, List.mem_singleton] at hb
    exact hk (hb ▸ ha)

lemma extractGo_keys_nodup :
    ∀ (rs ps : List String) (acc : List (String × String)),
      (acc.map Prod.fst).Nodup → ((extractGo rs ps acc).map Prod.fst).Nodup := by
  intro rs
  induction rs with
  | nil => intro ps acc h; exact h
  | cons r rest ih =>
    intro ps acc h
    simp only [extractGo]
    by_cases hr : startsWithColon r = true
    · rw [if_pos hr]
      exact ih ps.tail _ (recSet_keys_nodup acc (dropFirstChar r) (ps.headD "") h)
    · rw [if_neg hr]
      exact ih ps.tail acc h

lemma extractParams_keys_nodup (routePath actualPath : String) :
    ((extractParams routePath actualPath).map Prod.fst).Nodup :=
  extractGo_keys_nodup (segments routePath) (segments actualPath) [] (by simp)

/-- Claim C8: in the merged parameter bag passed to the handler, a
caller-supplied explicit parameter with the same key as a path-derived
parameter wins, and keys present in only one of the two sources keep their
value unchanged: looking up any key in the merge yields the caller value when
present, otherwise the path-derived value. -/
theorem mergeParams_explicit_precedence (routePath target : String)
    (extra : List (String × String)) (k : String)
    (hb : (extra.map Prod.fst).Nodup) :
    lookupRec (mergeParams (extractParams routePath target) extra) k =
      (lookupRec extra k).or (lookupRec (extractParams routePath target) k) := by
  unfold mergeParams spreadRec
  rw [List.foldl_append]
  rw [foldl_recSet_lookup k extra _ hb]
  rw [foldl_recSet_lookup k (extractParams routePath target) []
    (extractParams_keys_nodup routePath target)]
  cases lookupRec extra k <;> cases lookupRec (extractParams routePath target) k <;> rfl

/-- Witness for claim C8 at a concrete collision: the caller's `id` value
overrides the path-derived one. -/
theorem mergeParams_explicit_precedence_witness :
    ([("id", "7")].map Prod.fst).Nodup ∧
    lookupRec (mergeParams (extractParams "api/:id" "/api/42") [("id", "7")]) "id" =
      (lookupRec [("id", "7")] "id").or
        (lookupRec (extractParams "api/:id" "/api/42") "id") ∧
    lookupRec (mergeParams (extractParams "api/:id" "/api/42") [("id", "7")]) "id" =
      some "7" :=
  ⟨by decide,
   mergeParams_explicit_precedence "api/:id" "/api/42" [("id", "7")] "id" (by decide),
   by decide⟩

/-! ## Claims C9 and C10: the dispatch pipeline -/

lemma invoke_str_run (table : RouteList) (baseUrl : String)
    (loadMod : String → Except String RouteModule) (url : String) (opts : InitOpts)
    (ri : RouteInfoR) (m : RouteModule) (f : HandlerArgs → HandlerResult)
    (h1 : findRouteFile (targetOf url) table "" = some ri)
    (h2 : loadMod (posixJoin "~" ri.file) = .ok m)
    (h3 : selectHandler m (opts.method.getD "GET") = some (.handler f)) :
    invoke table baseUrl loadMod (.str url) opts =
      .ok (convertToResponse (f (mkHandlerArgs
        (mkStringRequest baseUrl url (opts.method.getD "GET") opts)
        (mergeParams (extractParams ri.routePath (targetOf url)) opts.params)))) := by
  unfold invoke
  simp only [h1, h2, h3, exportTruthy, if_true]

lemma takeWhile_noQuery :
    ∀ l : List Char, ((l.takeWhile (fun c => c ≠ '?')).contains '?') = false := by
  intro l
  induction l with
  | nil => rfl
  | cons c rest ih =>
    by_cases hc : (c ≠ '?' : Bool) = true
    · have hcc : ¬ c = '?' := by simpa using hc
      simp only [List.takeWhile_cons, hc, if_true, List.contains_cons, ih, Bool.or_false]
      simpa using fun hcq : ('?' : Char) = c => hcc hcq.symm
    · have hcb : (c ≠ '?' : Bool) = false := by simpa using hc
      simp [List.takeWhile_cons, hcb]

lemma hasQueryChar_beforeQuery (url : String) :
    hasQueryChar (beforeQuery url) = false := by
  unfold hasQueryChar beforeQuery
  exact takeWhile_noQuery url.toList

lemma takeWhile_idem (p : Char → Bool) :
    ∀ l : List Char, (l.takeWhile p).takeWhile p = l.takeWhile p := by
  intro l
  induction l with
  | nil => rfl
  | cons c rest ih =>
    by_cases hc : p c = true
    · simp [List.takeWhile_cons, hc, ih]
    · simp [List.takeWhile_cons, hc]

lemma beforeQuery_idem (url : String) :
    beforeQuery (beforeQuery url) = beforeQuery url := by
  unfold beforeQuery
  exact congrArg String.mk (takeWhile_idem _ url.toList)

lemma targetOf_beforeQuery (url : String) :
    targetOf url = targetOf (beforeQuery url) := by
  unfold targetOf
  rw [beforeQuery_idem]

lemma hasQueryChar_targetOf (url : String) :
    hasQueryChar (targetOf url) = false := by
  unfold targetOf
  by_cases h : beforeQuery url = ""
  · simp only [h, if_true]
    rfl
  · simp only [h, if_false]
    exact hasQueryChar_beforeQuery url

/-- Dispatch characterization for either input shape: when the route
resolves, the module loads, and the selected export is a handler, `invoke`
calls that handler on the derived request and the merged parameters. -/
lemma invoke_run (table : RouteList) (baseUrl : String)
    (loadMod : String → Except String RouteModule) (input : FetchInput) (opts : InitOpts)
    (ri : RouteInfoR) (m : RouteModule) (f : HandlerArgs → HandlerResult)
    (h1 : findRouteFile (targetOf (urlOf input)) table "" = some ri)
    (h2 : loadMod (posixJoin "~" ri.file) = .ok m)
    (h3 : selectHandler m (methodOf input opts) = some (.handler f)) :
    invoke table baseUrl loadMod input opts =
      .ok (convertToResponse (f (mkHandlerArgs
        (requestOf input baseUrl (methodOf input opts) opts)
        (mergeParams (extractParams ri.routePath (targetOf (urlOf input))) opts.params)))) := by
  cases input with
  | str s =>
    simp only [urlOf, methodOf, requestOf] at h1 h3 ⊢
    unfold invoke
    simp only [h1, h2, h3, exportTruthy, if_true]
  | req r =>
    simp only [urlOf, methodOf, requestOf] at h1 h3 ⊢
    unfold invoke
    simp only [h1, h2, h3, exportTruthy, if_true]

/-- Claim C9: for every invocation that reaches a handler — whether the input
is a plain string or a `Request` object — the parameter bag passed as the
handler's `params` argument and the `params` field inside the invocation
context are the same merged mapping: the handler never observes two
different parameter bags in one call. -/
theorem invoke_params_context_agree (table : RouteList) (baseUrl : String)
    (loadMod : String → Except String RouteModule) (input : FetchInput) (opts : InitOpts)
    (ri : RouteInfoR) (m : RouteModule) (f : HandlerArgs → HandlerResult)
    (h1 : findRouteFile (targetOf (urlOf input)) table "" = some ri)
    (h2 : loadMod (posixJoin "~" ri.file) = .ok m)
    (h3 : selectHandler m (methodOf input opts) = some (.handler f)) :
    invoke table baseUrl loadMod input opts =
      .ok (convertToResponse (f (mkHandlerArgs
        (requestOf input baseUrl (methodOf input opts) opts)
        (mergeParams (extractParams ri.routePath (targetOf (urlOf input))) opts.params)))) ∧
    (mkHandlerArgs (requestOf input baseUrl (methodOf input opts) opts)
        (mergeParams (extractParams ri.routePath (targetOf (urlOf input))) opts.params)).params =
      (mkHandlerArgs (requestOf input baseUrl (methodOf input opts) opts)
        (mergeParams (extractParams ri.routePath (targetOf (urlOf input))) opts.params)).context.params :=
  ⟨invoke_run table baseUrl loadMod input opts ri m f h1 h2 h3, rfl⟩

/-- Witness for claim C9 at a concrete Request-object invocation through the
probe module. -/
theorem invoke_params_context_agree_witness :
    invoke probeTable "http://localhost" probeLoader (.req probeRequest) {} =
      .ok (convertToResponse (probeHandler (mkHandlerArgs
        (requestOf (.req probeRequest) "http://localhost"
          (methodOf (.req probeRequest) {}) {})
        (mergeParams
          (extractParams "/api/users/:id" (targetOf (urlOf (.req probeRequest)))) [])))) ∧
    (mkHandlerArgs (requestOf (.req probeRequest) "http://localhost"
          (methodOf (.req probeRequest) {}) {})
        (mergeParams
          (extractParams "/api/users/:id" (targetOf (urlOf (.req probeRequest)))) [])).params =
      (mkHandlerArgs (requestOf (.req probeRequest) "http://localhost"
          (methodOf (.req probeRequest) {}) {})
        (mergeParams
          (extractParams "/api/users/:id" (targetOf (urlOf (.req probeRequest)))) [])).context.params :=
  invoke_params_context_agree probeTable "http://localhost" probeLoader (.req probeRequest) {}
    { file := "h", routePath := "/api/users/:id" } probeModule probeHandler
    (by decide) (by rfl) (by rfl)

/-- Claim C10: for every plain-string input carrying a query component,
route matching and parameter extraction use only the part of the input
before the first question mark (a query-free string), while the request the
handler observes is the configured base URL concatenated with the original
input, query preserved. -/
theorem invoke_query_stripping_frame (table : RouteList) (baseUrl : String)
    (loadMod : String → Except String RouteModule) (url : String) (opts : InitOpts)
    (ri : RouteInfoR) (m : RouteModule) (f : HandlerArgs → HandlerResult)
    (hq : hasQueryChar url = true)
    (h1 : findRouteFile (targetOf url) table "" = some ri)
    (h2 : loadMod (posixJoin "~" ri.file) = .ok m)
    (h3 : selectHandler m (opts.method.getD "GET") = some (.handler f)) :
    invoke table baseUrl loadMod (.str url) opts =
      .ok (convertToResponse (f (mkHandlerArgs
        (mkStringRequest baseUrl url (opts.method.getD "GET") opts)
        (mergeParams (extractParams ri.routePath (targetOf url)) opts.params)))) ∧
    (mkStringRequest baseUrl url (opts.method.getD "GET") opts).url = baseUrl ++ url ∧
    hasQueryChar (targetOf url) = false ∧
    targetOf url = targetOf (beforeQuery url) :=
  ⟨invoke_str_run table baseUrl loadMod url opts ri m f h1 h2 h3, rfl,
   hasQueryChar_targetOf url, targetOf_beforeQuery url⟩

/-- Witness for claim C10 at the concrete input `/api/users/42?x=1`. -/
theorem invoke_query_stripping_frame_witness :
    hasQueryChar "/api/users/42?x=1" = true ∧
    (invoke probeTable "http://localhost" probeLoader (.str "/api/users/42?x=1") {} =
      .ok (convertToResponse (probeHandler (mkHandlerArgs
        (mkStringRequest "http://localhost" "/api/users/42?x=1" "GET" {})
        (mergeParams (extractParams "/api/users/:id" (targetOf "/api/users/42?x=1")) [])))) ∧
      (mkStringRequest "http://localhost" "/api/users/42?x=1" "GET" {}).url =
        "http://localhost" ++ "/api/users/42?x=1" ∧
      hasQueryChar (targetOf "/api/users/42?x=1") = false ∧
      targetOf "/api/users/42?x=1" = targetOf (beforeQuery "/api/users/42?x=1")) :=
  ⟨by decide,
   invoke_query_stripping_frame probeTable "http://localhost" probeLoader
     "/api/users/42?x=1" {} { file := "h", routePath := "/api/users/:id" }
     probeModule probeHandler (by decide) (by decide) (by rfl) (by rfl)⟩
